import Mathlib

/-!
Shallow embedding of the classification-and-planning pipeline of the
AI Folder Organizer (`cortex` repository): the rule/LLM classifier
(`core/classifier.py`), the plan builder (`core/planner.py`), the
executor (`core/executor.py`) and the move-log writer (`core/logger.py`),
together with theorems settling the specification claims.

Modelling conventions:
- pandas DataFrames become Lean lists of structures, one structure field
  per column; row-wise column updates become `List.map` of a per-row step.
- Python floats become `ℚ` (the float operations used by this code are
  constant assignment, comparison, addition and division, all exact here).
- Filesystem and network effects become explicit oracles passed in as
  function-valued parameters; exceptions become `Except`.
-/

namespace Cortex

/-! ## Classifier (`core/classifier.py`) -/

/-- The closed category set, `CATEGORIES` in `classifier.py`. -/
def CATEGORIES : List String :=
  [ "school_work"
  , "code_projects"
  , "photos_images"
  , "videos_media"
  , "music_audio"
  , "archives_installers"
  , "documents_misc"
  , "trash_or_temp"
  , "uncertain_review" ]

/-- The rule engine's extension map, `DEFAULT_EXTENSION_MAP` in
`classifier.py` (a Python dict with distinct keys, embedded as an
association list). -/
def DEFAULT_EXTENSION_MAP : List (String × String) :=
  [ (".py", "code_projects")
  , (".java", "code_projects")
  , (".cpp", "code_projects")
  , (".c", "code_projects")
  , (".h", "code_projects")
  , (".hpp", "code_projects")
  , (".js", "code_projects")
  , (".ts", "code_projects")
  , (".ipynb", "code_projects")
  , (".jpg", "photos_images")
  , (".jpeg", "photos_images")
  , (".png", "photos_images")
  , (".heic", "photos_images")
  , (".gif", "photos_images")
  , (".tif", "photos_images")
  , (".tiff", "photos_images")
  , (".mov", "videos_media")
  , (".mp4", "videos_media")
  , (".mkv", "videos_media")
  , (".avi", "videos_media")
  , (".mp3", "music_audio")
  , (".wav", "music_audio")
  , (".flac", "music_audio")
  , (".m4a", "music_audio")
  , (".zip", "archives_installers")
  , (".tar", "archives_installers")
  , (".tar.gz", "archives_installers")
  , (".tgz", "archives_installers")
  , (".rar", "archives_installers")
  , (".dmg", "archives_installers")
  , (".pkg", "archives_installers")
  , (".exe", "archives_installers")
  , (".pdf", "documents_misc")
  , (".doc", "documents_misc")
  , (".docx", "documents_misc")
  , (".ppt", "documents_misc")
  , (".pptx", "documents_misc")
  , (".xls", "documents_misc")
  , (".xlsx", "documents_misc")
  , (".txt", "documents_misc")
  , (".md", "documents_misc")
  , (".tmp", "trash_or_temp")
  , (".log", "trash_or_temp")
  , (".ds_store", "trash_or_temp") ]

/-- One input row of the scan DataFrame (columns required by
`classify_files`). -/
structure ScanRow where
  file_name : String
  extension : String
  full_path : String
  size_bytes : Int
  modified_time : ℚ
deriving DecidableEq

/-- One row of the classified DataFrame: the scan columns plus the three
classification columns added by `classify_files` (each may be null). -/
structure ClassifiedRow where
  file_name : String
  extension : String
  full_path : String
  size_bytes : Int
  modified_time : ℚ
  category : Option String
  classifier_type : Option String
  confidence : Option ℚ
deriving DecidableEq

/-- The domain error hierarchy (`core/errors.py`), restricted to the
constructors the embedded components can raise. -/
inductive OrganizerErr where
  | classificationError (msg : String)
  | missingApiKey (msg : String)
  | llmUnavailable (msg : String)
  | llmResponseParse (msg : String)
  | fileMoveError (msg : String)
  | loggingError (msg : String)
deriving DecidableEq

/-- `LlmClassificationResult` from `core/models.py` (the `full_path` and
optional `reason` fields are irrelevant to the claims and the path key is
kept in the association list instead). -/
structure LlmClassificationResult where
  category : String
  confidence : ℚ
deriving DecidableEq

/-- One value of the JSON object the remote model returns: either not a
JSON object itself (such entries are skipped), or an object whose
`category` / `confidence` fields may be absent; an uncoercible confidence
is embedded as `none`, matching the `float(...)` try/except. -/
inductive JsonEntry where
  | malformed
  | entry (category : Option String) (confidence : Option ℚ)
deriving DecidableEq

/-- Outcome of the remote call in `_llm_classify_files`: the API call
raising, a response without `output_text`, a non-JSON payload, a JSON
payload that is not an object, or a parsed object keyed by path. -/
inductive LlmCallResult where
  | callError (msg : String)
  | badStructure (msg : String)
  | notJson (msg : String)
  | notDict (msg : String)
  | parsed (entries : List (String × JsonEntry))

/-- The remote oracle: the network interaction of `_llm_classify_files`
abstracted as a function of the metadata rows sent. -/
def LlmOracle : Type := List ScanRow → LlmCallResult

/-- Clamp a confidence value to [0,1], as `_llm_classify_files` does. -/
def clamp01 (q : ℚ) : ℚ :=
  if q < 0 then 0 else if q > 1 then 1 else q

/-- Python-dict insertion (`results[k] = v`): replace the binding if the
key is present, else append. -/
def dictSet (m : List (String × LlmClassificationResult)) (k : String)
    (v : LlmClassificationResult) : List (String × LlmClassificationResult) :=
  match m with
  | [] => [(k, v)]
  | (k1, v1) :: t => if k1 = k then (k, v) :: t else (k1, v1) :: dictSet t k v

/-- The per-entry processing loop of `_llm_classify_files`: skip values
that are not objects; default a missing category to `"uncertain_review"`
and a missing/uncoercible confidence to `0.0`; clamp confidence to
[0,1]. -/
def processEntries (entries : List (String × JsonEntry)) :
    List (String × LlmClassificationResult) :=
  entries.foldl
    (fun acc e =>
      match e.2 with
      | .malformed => acc
      | .entry cat conf =>
          dictSet acc e.1
            { category := cat.getD "uncertain_review"
            , confidence := clamp01 (conf.getD 0) })
    []

/-- `_llm_classify_files(rows)`: returns `{}` immediately on an empty
row list; otherwise requires the API key (raising `MissingApiKeyError`
when absent), performs the remote call and wraps its failure modes, and
processes the parsed entries. -/
def llm_classify_files (apiKey : Option String) (oracle : LlmOracle)
    (rows : List ScanRow) :
    Except OrganizerErr (List (String × LlmClassificationResult)) :=
  if rows.isEmpty then .ok []
  else
    match apiKey with
    | none => .error (.missingApiKey "OPENAI_API_KEY is not set")
    | some _ =>
        match oracle rows with
        | .callError m => .error (.llmUnavailable ("LLM API call failed: " ++ m))
        | .badStructure m =>
            .error (.llmResponseParse ("Unexpected LLM response structure: " ++ m))
        | .notJson m =>
            .error (.llmResponseParse ("Failed to parse LLM response as JSON: " ++ m))
        | .notDict m =>
            .error (.llmResponseParse
              ("LLM response JSON must be an object mapping full_path -> result, got " ++ m))
        | .parsed entries => .ok (processEntries entries)

/-- Python `str.lower` on the extension strings (`String.toLower`, in a
form the kernel can evaluate). -/
def strLower (s : String) : String :=
  String.mk (s.data.map Char.toLower)

/-- The rule pass of `classify_files` for one row: lowercase the
extension, then assign from `DEFAULT_EXTENSION_MAP`; a row whose
extension has no rule keeps null classification columns.  (The source
iterates the dict setting masked rows; as the dict keys are distinct this
equals a per-row lookup.) -/
def ruleRow (r : ScanRow) : ClassifiedRow :=
  let ext := strLower r.extension
  match DEFAULT_EXTENSION_MAP.lookup ext with
  | some cat =>
      { file_name := r.file_name, extension := ext, full_path := r.full_path
      , size_bytes := r.size_bytes, modified_time := r.modified_time
      , category := some cat, classifier_type := some "rule", confidence := some 1 }
  | none =>
      { file_name := r.file_name, extension := ext, full_path := r.full_path
      , size_bytes := r.size_bytes, modified_time := r.modified_time
      , category := none, classifier_type := none, confidence := none }

/-- The metadata dict built for one ambiguous row before the remote
call. -/
def toMeta (r : ClassifiedRow) : ScanRow :=
  { file_name := r.file_name, extension := r.extension, full_path := r.full_path
  , size_bytes := r.size_bytes, modified_time := r.modified_time }

/-- The merge loop of `classify_files` for one row: rows already
classified by a rule are untouched; an ambiguous row with no entry for
its path becomes `uncertain_review` at confidence 0; otherwise the
returned category is taken, normalized to `uncertain_review` when outside
`CATEGORIES`, keeping the returned confidence. -/
def mergeLlm (results : List (String × LlmClassificationResult))
    (row : ClassifiedRow) : ClassifiedRow :=
  if row.category.isSome then row
  else
    match results.lookup row.full_path with
    | none =>
        { row with category := some "uncertain_review",
                   classifier_type := some "llm", confidence := some 0 }
    | some res =>
        let cat := if res.category ∈ CATEGORIES then res.category else "uncertain_review"
        { row with category := some cat,
                   classifier_type := some "llm", confidence := some res.confidence }

/-- Whether an optional confidence value is strictly below the
threshold; a null confidence compares false, as NaN does in the
source. -/
def confBelow (min_confidence : ℚ) : Option ℚ → Bool
  | some c => decide (c < min_confidence)
  | none => false

/-- The threshold pass of `classify_files` for one row: rows with
`classifier_type == "llm"` and confidence strictly below the threshold
have their category overwritten to `uncertain_review`. -/
def thresholdStep (min_confidence : ℚ) (row : ClassifiedRow) : ClassifiedRow :=
  if row.classifier_type = some "llm" ∧ confBelow min_confidence row.confidence = true then
    { row with category := some "uncertain_review" }
  else row

/-- The threshold pass of `classify_files` over the whole DataFrame. -/
def thresholdPass (min_confidence : ℚ) (rows : List ClassifiedRow) :
    List ClassifiedRow :=
  rows.map (thresholdStep min_confidence)

/-- `classify_files(df, min_confidence)`: rule pass, one batched remote
call for the ambiguous rows when any exist, merge, then the threshold
pass.  (The schema check on the input columns is made moot by the typed
rows.) -/
def classify_files (apiKey : Option String) (oracle : LlmOracle)
    (rows : List ScanRow) (min_confidence : ℚ) :
    Except OrganizerErr (List ClassifiedRow) :=
  let ruled := rows.map ruleRow
  let ambiguous := ruled.filter (fun r => r.category.isNone)
  if ambiguous.isEmpty then
    .ok (thresholdPass min_confidence ruled)
  else
    match llm_classify_files apiKey oracle (ambiguous.map toMeta) with
    | .error e => .error e
    | .ok results =>
        .ok (thresholdPass min_confidence (ruled.map (mergeLlm results)))

/-! ## Planner (`core/planner.py`) -/

/-- A filesystem path as its list of components (`pathlib.Path`
abstracted; `p / x` is `p ++ [x]`). -/
abbrev FPath : Type := List String

/-- `PlanCategorySummary` from `core/models.py`. -/
structure PlanCategorySummary where
  category : String
  file_count : Nat
  total_size_mb : ℚ
  avg_confidence : Option ℚ
  sample_files : List String
deriving DecidableEq

/-- `PlanSummary` from `core/models.py` (its `df` field keeps the
classified rows). -/
structure PlanSummary where
  root_path : FPath
  df : List ClassifiedRow
  categories : List PlanCategorySummary
  total_files : Nat
  total_size_mb : ℚ
  num_uncertain : Nat

/-- Bytes per megabyte, the `1024 * 1024` divisor in `build_plan`. -/
def mbBytes : ℚ := 1024 * 1024

/-- The rows of one category group (`grouped.get_group(cat)`); rows with
a null category are dropped from grouping, as by
`dropna(subset=["category"])`. -/
def groupRows (rows : List ClassifiedRow) (cat : String) : List ClassifiedRow :=
  rows.filter (fun r => r.category = some cat)

/-- Deduplication keeping first occurrences, given the keys already
seen. -/
def firstSeenAux (seen : List String) : List String → List String
  | [] => []
  | a :: t =>
      if a ∈ seen then firstSeenAux seen t
      else a :: firstSeenAux (a :: seen) t

/-- The distinct category keys of the grouped DataFrame in first-seen
order (`groupby(..., sort=False).groups.keys()`). -/
def firstSeen (l : List String) : List String :=
  firstSeenAux [] l

/-- `_make_summary_for_category` on a category known to be present:
count, total size in MB, mean of the non-null confidences (null when
none), and the three lexicographically-first file names. -/
def mkCatSummaryD (rows : List ClassifiedRow) (cat : String) : PlanCategorySummary :=
  let g := groupRows rows cat
  let confs := g.filterMap (fun r => r.confidence)
  { category := cat
  , file_count := g.length
  , total_size_mb := ((g.map (fun r => (r.size_bytes : ℚ))).sum) / mbBytes
  , avg_confidence :=
      if confs.isEmpty then none else some (confs.sum / (confs.length : ℚ))
  , sample_files := ((g.map (fun r => r.file_name)).mergeSort (fun a b => a ≤ b)).take 3 }

/-- `_make_summary_for_category`: `none` when the category has no
group. -/
def mkCatSummary (rows : List ClassifiedRow) (cat : String) :
    Option PlanCategorySummary :=
  if groupRows rows cat = [] then none else some (mkCatSummaryD rows cat)

/-- The category keys in output order: canonical `CATEGORIES` order for
the categories present, then any unexpected categories in first-seen
order. -/
def orderedCats (rows : List ClassifiedRow) : List String :=
  CATEGORIES.filter (fun c => groupRows rows c ≠ []) ++
    (firstSeen (rows.filterMap (fun r => r.category))).filter (fun c => c ∉ CATEGORIES)

/-- `build_plan(df, root_path)`: global totals, per-category summaries
in canonical-then-unexpected order, and the uncertain count.  (The
column-schema check is made moot by the typed rows; the source's
`astype(float)` / `to_numeric` coercions are identities here.) -/
def build_plan (rows : List ClassifiedRow) (root_path : FPath) : PlanSummary :=
  { root_path := root_path
  , df := rows
  , categories := (orderedCats rows).filterMap (mkCatSummary rows)
  , total_files := rows.length
  , total_size_mb := ((rows.map (fun r => (r.size_bytes : ℚ))).sum) / mbBytes
  , num_uncertain := (rows.filter (fun r => r.category = some "uncertain_review")).length }

/-! ## Executor (`core/executor.py`) -/

/-- Render a path for interpolation into messages (`str(Path)`). -/
def renderPath (p : FPath) : String :=
  String.intercalate "/" p

/-- The last component of a path (`Path.name`). -/
def pathName (p : FPath) : String :=
  (List.getLast? p).getD ""

/-- Split a file name into `Path.stem` and `Path.suffix`: the suffix
starts at the last dot when that dot is neither the leading nor the
trailing character (CPython's `0 < i < len(name) - 1` condition, so
`"foo."` has stem `"foo."` and empty suffix). -/
def splitExt (nm : String) : String × String :=
  let cs := nm.data
  let idxs := (List.range cs.length).filter (fun i => cs.getD i ' ' = '.')
  match idxs.getLast? with
  | some i =>
      if 0 < i ∧ i < cs.length - 1 then (String.mk (cs.take i), String.mk (cs.drop i))
      else (nm, "")
  | none => (nm, "")

/-- The `i`-th collision candidate for a path:
`parent / "{stem} ({i}){suffix}"`. -/
def candidatePath (p : FPath) (i : Nat) : FPath :=
  let s := splitExt (pathName p)
  List.dropLast p ++ [s.1 ++ " (" ++ toString i ++ ")" ++ s.2]

/-- The probe loop of `_resolve_collision`, with explicit fuel standing
for the unbounded `while True` (the theorems only use runs in which a
free candidate is found within fuel, which holds on any finite
filesystem). -/
def resolveCollisionAux (files : List FPath) (p : FPath) : Nat → Nat → FPath
  | 0, i => candidatePath p i
  | fuel + 1, i =>
      let c := candidatePath p i
      if c ∈ files then resolveCollisionAux files p fuel (i + 1) else c

/-- `_resolve_collision(path)` against the set of existing files: the
path itself when free, else the first free candidate `name (i).ext`
probing `i = 1, 2, ...`. -/
def resolve_collision (files : List FPath) (p : FPath) : FPath :=
  if p ∈ files then resolveCollisionAux files p (files.length + 1) 1 else p

/-- `MoveRecord` from `core/models.py` (paths as component lists). -/
structure MoveRecord where
  file_name : String
  old_path : FPath
  new_path : FPath
  category : String
  classifier_type : String
  confidence : Option ℚ
  status : String
deriving DecidableEq

/-- One row of `plan.df` as read by `apply_plan` (the columns it
requires). -/
structure ExecRow where
  file_name : String
  full_path : FPath
  category : Option String
  classifier_type : Option String
  confidence : Option ℚ
deriving DecidableEq

/-- The filesystem and its failure behavior, abstracted: the set of
existing files, the outcome of `mkdir` per directory (`none` =
success), and the outcome of `shutil.move` per (source, destination)
(`none` = success). -/
structure FsState where
  files : List FPath
  dirFail : FPath → Option String
  moveFail : FPath → FPath → Option String

/-- The loop state of `apply_plan`: live files, the per-category
directory-failure cache, the move records so far, and a ghost log of
the directories `mkdir` was actually attempted on. -/
structure ApplyState where
  files : List FPath
  failures : List (String × String)
  records : List MoveRecord
  mkdirCalls : List FPath

/-- The category coercion at the top of the `apply_plan` loop:
`str(raw) if raw not in (None, "", "nan") else "uncertain_review"`. -/
def effCategory : Option String → String
  | none => "uncertain_review"
  | some s => if s = "" ∨ s = "nan" then "uncertain_review" else s

/-- `_append_move`: build one `MoveRecord`, normalizing a null
classifier type to `"rule"`. -/
def mkMoveRecord (row : ExecRow) (new_path : FPath) (category status : String) :
    MoveRecord :=
  { file_name := row.file_name
  , old_path := row.full_path
  , new_path := new_path
  , category := category
  , classifier_type := row.classifier_type.getD "rule"
  , confidence := row.confidence
  , status := status }

/-- The body of the `apply_plan` loop for one row: cached-failure
short-circuit, directory creation, missing-source check, same-location
skip (`Path.resolve` modelled as the identity: no symlinks in the
model), collision resolution, and the move itself.  Exactly one record
is appended on every path. -/
def applyStep (fs : FsState) (root_path : FPath) (st : ApplyState) (row : ExecRow) :
    ApplyState :=
  let category := effCategory row.category
  let target_dir := root_path ++ [category]
  let old_path := row.full_path
  let new_path := target_dir ++ [pathName old_path]
  match st.failures.lookup category with
  | some reason =>
      { st with records :=
          st.records ++ [mkMoveRecord row new_path category ("failed: " ++ reason)] }
  | none =>
      let st1 : ApplyState := { st with mkdirCalls := st.mkdirCalls ++ [target_dir] }
      match fs.dirFail target_dir with
      | some exc =>
          let reason :=
            "could not create target directory '" ++ renderPath target_dir ++ "': " ++ exc
          { st1 with
              failures := (category, reason) :: st1.failures
            , records :=
                st1.records ++ [mkMoveRecord row new_path category ("failed: " ++ reason)] }
      | none =>
          if old_path ∉ st1.files then
            { st1 with records :=
                st1.records ++
                  [mkMoveRecord row new_path category "failed: source file not found"] }
          else if old_path = new_path then
            { st1 with records :=
                st1.records ++
                  [mkMoveRecord row new_path category "skipped: already in target"] }
          else
            let new_final := resolve_collision st1.files new_path
            match fs.moveFail old_path new_final with
            | none =>
                { st1 with
                    files := new_final :: st1.files.erase old_path
                  , records :=
                      st1.records ++ [mkMoveRecord row new_final category "success"] }
            | some exc =>
                { st1 with records :=
                    st1.records ++
                      [mkMoveRecord row new_final category ("failed: " ++ exc)] }

/-- `apply_plan(plan, root_path)` (the schema and plan checks that raise
`FileMoveError` before the loop are made moot by the typed rows; the
returned `moves_df` carries the same data as the records). -/
def apply_plan (fs : FsState) (root_path : FPath) (rows : List ExecRow) : ApplyState :=
  rows.foldl (applyStep fs root_path)
    { files := fs.files, failures := [], records := [], mkdirCalls := [] }

/-! ## Move log writer (`core/logger.py`) -/

/-- A UTC wall-clock instant with second resolution, the part of
`datetime.now(timezone.utc)` that `strftime` reads. -/
structure DateTimeUTC where
  year : Nat
  month : Nat
  day : Nat
  hour : Nat
  minute : Nat
  second : Nat
deriving DecidableEq

/-- Zero-pad a numeral to two digits (`%m`, `%d`, `%H`, `%M`, `%S`). -/
def pad2 (n : Nat) : String :=
  if n < 10 then "0" ++ toString n else toString n

/-- Zero-pad a numeral to four digits (`%Y`). -/
def pad4 (n : Nat) : String :=
  if n < 10 then "000" ++ toString n
  else if n < 100 then "00" ++ toString n
  else if n < 1000 then "0" ++ toString n
  else toString n

/-- `strftime("%Y%m%d_%H%M%SZ")`. -/
def formatTimestamp (t : DateTimeUTC) : String :=
  pad4 t.year ++ pad2 t.month ++ pad2 t.day ++ "_" ++
    pad2 t.hour ++ pad2 t.minute ++ pad2 t.second ++ "Z"

/-- The log filesystem oracle: outcome of creating the log directory
and of writing a file at a path (`none` = success). -/
structure LogFs where
  mkdirFail : FPath → Option String
  writeFail : FPath → String → Option String

/-- One CSV line of the move log, in the fixed column order (the
source's pandas quoting rules are elided; a null confidence is
blank). -/
def csvLine (r : MoveRecord) : String :=
  String.intercalate ","
    [ r.file_name, renderPath r.old_path, renderPath r.new_path, r.category
    , r.classifier_type
    , (match r.confidence with
       | some c => toString c
       | none => "")
    , r.status ]

/-- The move-log CSV: header plus one line per record (written even
when there are zero records). -/
def csvContent (records : List MoveRecord) : String :=
  String.intercalate "\n"
    ("file_name,old_path,new_path,category,classifier_type,confidence,status" ::
      records.map csvLine)

/-- `write_move_log(records, root_path)` with the default directory
names inlined: create `<root>/.organizer/logs`, then write
`move_log_<timestamp>.csv` there, wrapping either failure as
`LoggingError`; returns the log path. -/
def write_move_log (lfs : LogFs) (records : List MoveRecord) (root_path : FPath)
    (now : DateTimeUTC) : Except OrganizerErr FPath :=
  let log_dir := root_path ++ [".organizer", "logs"]
  match lfs.mkdirFail log_dir with
  | some _ => .error (.loggingError ("Failed to create log directory: " ++ renderPath log_dir))
  | none =>
      let log_path := log_dir ++ ["move_log_" ++ formatTimestamp now ++ ".csv"]
      match lfs.writeFail log_path (csvContent records) with
      | some _ =>
          .error (.loggingError ("Failed to write move log to '" ++ renderPath log_path ++ "'."))
      | none => .ok log_path

/-! ## General helper lemmas -/

instance {ε α : Type} [DecidableEq ε] [DecidableEq α] : DecidableEq (Except ε α) :=
  fun a b =>
    match a, b with
    | .ok x, .ok y =>
        if h : x = y then isTrue (by rw [h]) else isFalse (by simp [h])
    | .error x, .error y =>
        if h : x = y then isTrue (by rw [h]) else isFalse (by simp [h])
    | .ok _, .error _ => isFalse (by simp)
    | .error _, .ok _ => isFalse (by simp)

/-- A successful association-list lookup returns a stored pair. -/
theorem lookup_mem {α β : Type} [BEq α] [LawfulBEq α] {l : List (α × β)} {k : α} {v : β}
    (h : l.lookup k = some v) : (k, v) ∈ l := by
  induction l with
  | nil => simp [List.lookup] at h
  | cons p t ih =>
      rw [List.lookup] at h
      by_cases hk : k == p.1
      · simp [hk] at h
        have hk2 : k = p.1 := eq_of_beq hk
        cases p
        simp_all
      · simp [hk] at h
        exact List.mem_cons_of_mem _ (ih h)

/-! ## Theorems on the classifier -/

/-- A row whose (lowercased) extension has a rule gets the mapped
category, `rule` type and confidence 1 from the rule pass. -/
theorem ruleRow_matched (r : ScanRow) (cat : String)
    (h : DEFAULT_EXTENSION_MAP.lookup (strLower r.extension) = some cat) :
    (ruleRow r).category = some cat ∧ (ruleRow r).classifier_type = some "rule" ∧
      (ruleRow r).confidence = some 1 := by
  simp [ruleRow, h]

/-- The merge pass leaves rule-classified rows untouched. -/
theorem mergeLlm_of_isSome (results : List (String × LlmClassificationResult))
    (row : ClassifiedRow) (h : row.category.isSome) : mergeLlm results row = row := by
  simp [mergeLlm, h]

/-- The threshold pass leaves rule-classified rows untouched. -/
theorem thresholdStep_of_rule (m : ℚ) (row : ClassifiedRow)
    (h : row.classifier_type = some "rule") : thresholdStep m row = row := by
  simp [thresholdStep, h]

/-- Characterize the successful outcomes of `classify_files`: the output
is the threshold pass applied to the merged rule pass, where the merge is
the identity when every rule-pass row is already classified. -/
theorem classify_files_ok_shape (apiKey : Option String) (oracle : LlmOracle)
    (rows : List ScanRow) (m : ℚ) (out : List ClassifiedRow)
    (hok : classify_files apiKey oracle rows m = .ok out) :
    ∃ f : ClassifiedRow → ClassifiedRow,
      (∀ row, row.category.isSome → f row = row) ∧
      (∀ row ∈ rows.map ruleRow, row.category = none → ∃ results,
        f row = mergeLlm results row) ∧
      out = (rows.map ruleRow).map (fun r => thresholdStep m (f r)) := by
  by_cases hAmb : ((rows.map ruleRow).filter (fun r => r.category.isNone)).isEmpty
  · refine ⟨id, fun _ _ => rfl, ?_, ?_⟩
    · intro row hrow hnone
      rw [List.isEmpty_iff, List.filter_eq_nil_iff] at hAmb
      exact absurd (by simp [hnone]) (hAmb row hrow)
    · unfold classify_files at hok
      rw [if_pos hAmb] at hok
      simp only [Except.ok.injEq] at hok
      rw [← hok]
      simp [thresholdPass]
  · unfold classify_files at hok
    rw [if_neg hAmb] at hok
    cases hllm : llm_classify_files apiKey oracle
        (((rows.map ruleRow).filter (fun r => r.category.isNone)).map toMeta) with
    | error e => rw [hllm] at hok; simp at hok
    | ok results =>
        rw [hllm] at hok
        simp only [Except.ok.injEq] at hok
        refine ⟨mergeLlm results, mergeLlm_of_isSome results, ?_, ?_⟩
        · intro row _ _
          exact ⟨results, rfl⟩
        · rw [← hok]
          simp [thresholdPass]

/-- When every record matches a rule, the ambiguous set is empty and
`classify_files` returns the thresholded rule pass without consulting the
credential or the remote oracle. -/
theorem classify_files_of_all_matched (apiKey : Option String) (oracle : LlmOracle)
    (rows : List ScanRow) (m : ℚ)
    (hall : ∀ r ∈ rows, (DEFAULT_EXTENSION_MAP.lookup (strLower r.extension)).isSome) :
    classify_files apiKey oracle rows m = .ok (thresholdPass m (rows.map ruleRow)) := by
  have hAmb : ((rows.map ruleRow).filter (fun r => r.category.isNone)).isEmpty := by
    rw [List.isEmpty_iff, List.filter_eq_nil_iff]
    intro r hr
    obtain ⟨r0, hr0, rfl⟩ := List.mem_map.mp hr
    obtain ⟨cat, hcat⟩ := Option.isSome_iff_exists.mp (hall r0 hr0)
    have := (ruleRow_matched r0 cat hcat).1
    simp [this]
  unfold classify_files
  rw [if_pos hAmb]

/-- Claim C1: for every input record whose lowercased extension is a key
of the rule-engine extension map, `classify_files` assigns the mapped
category with `classifier_type = "rule"` and confidence 1.0; and when
every record matches a rule the result is independent of the credential
and of the remote classifier (no remote call is made). -/
theorem claim_C1 (apiKey : Option String) (oracle : LlmOracle) (rows : List ScanRow)
    (m : ℚ) (out : List ClassifiedRow)
    (hok : classify_files apiKey oracle rows m = .ok out) :
    (∀ (i : Nat) (hi : i < rows.length) (hi2 : i < out.length) (cat : String),
        DEFAULT_EXTENSION_MAP.lookup (strLower rows[i].extension) = some cat →
        out[i].category = some cat ∧ out[i].classifier_type = some "rule" ∧
          out[i].confidence = some 1)
    ∧ ((∀ r ∈ rows, (DEFAULT_EXTENSION_MAP.lookup (strLower r.extension)).isSome) →
        ∀ (apiKey2 : Option String) (oracle2 : LlmOracle),
          classify_files apiKey2 oracle2 rows m = .ok out) := by
  obtain ⟨f, hid, -, hout⟩ := classify_files_ok_shape apiKey oracle rows m out hok
  constructor
  · intro i hi hi2 cat hcat
    have hrule := ruleRow_matched rows[i] cat hcat
    have hsome : (ruleRow rows[i]).category.isSome := by
      rw [hrule.1]; rfl
    have : out[i] = thresholdStep m (f (ruleRow rows[i])) := by
      subst hout; simp
    rw [this, hid _ hsome, thresholdStep_of_rule m _ hrule.2.1]
    exact hrule
  · intro hall apiKey2 oracle2
    rw [classify_files_of_all_matched apiKey2 oracle2 rows m hall, ← hok,
      classify_files_of_all_matched apiKey oracle rows m hall]

/-- Sample scan rows: one rule-matched record. -/
def wRows1 : List ScanRow :=
  [ { file_name := "a.pdf", extension := ".PDF", full_path := "/r/a.pdf"
    , size_bytes := 100, modified_time := 0 } ]

/-- A remote oracle that is down. -/
def wOracleDown : LlmOracle := fun _ => .callError "connection timed out"

/-- The classified output for `wRows1`. -/
def wOut1 : List ClassifiedRow :=
  [ { file_name := "a.pdf", extension := ".pdf", full_path := "/r/a.pdf"
    , size_bytes := 100, modified_time := 0, category := some "documents_misc"
    , classifier_type := some "rule", confidence := some 1 } ]

theorem claim_C1_witness :
    classify_files none wOracleDown wRows1 (mkRat 13 20) = .ok wOut1 ∧
    ((wOut1.get ⟨0, by decide⟩).category = some "documents_misc" ∧
      (wOut1.get ⟨0, by decide⟩).classifier_type = some "rule" ∧
      (wOut1.get ⟨0, by decide⟩).confidence = some 1) := by
  have h := claim_C1 none wOracleDown wRows1 (mkRat 13 20) wOut1 (by decide)
  exact ⟨by decide, h.1 0 (by decide) (by decide) "documents_misc" (by decide)⟩

/-- Claim C2: in the threshold pass of `classify_files`, a record with
`classifier_type = "llm"` and confidence strictly below `min_confidence`
has its category overwritten to `"uncertain_review"` with every other
field (in particular the confidence) unchanged, while a record with
`classifier_type = "rule"` is never modified, for any `min_confidence`
in [0,1]. -/
theorem claim_C2 (m : ℚ) (hm0 : 0 ≤ m) (hm1 : m ≤ 1) (rows : List ClassifiedRow)
    (i : Nat) (hi : i < rows.length) (hi2 : i < (thresholdPass m rows).length) :
    (rows[i].classifier_type = some "llm" →
      ∀ c : ℚ, rows[i].confidence = some c → c < m →
        (thresholdPass m rows)[i] = { rows[i] with category := some "uncertain_review" })
    ∧ (rows[i].classifier_type = some "rule" → (thresholdPass m rows)[i] = rows[i]) := by
  constructor
  · intro hllm c hc hlt
    simp only [thresholdPass, List.getElem_map]
    simp [thresholdStep, hllm, hc, confBelow, hlt]
  · intro hrule
    simp only [thresholdPass, List.getElem_map]
    exact thresholdStep_of_rule m _ hrule

/-- A low-confidence llm-classified row. -/
def wRowLow : ClassifiedRow :=
  { file_name := "x.xyz", extension := ".xyz", full_path := "/r/x.xyz"
  , size_bytes := 5, modified_time := 0, category := some "school_work"
  , classifier_type := some "llm", confidence := some (mkRat 1 2) }

theorem claim_C2_witness :
    (0 ≤ mkRat 13 20 ∧ mkRat 13 20 ≤ 1 ∧ mkRat 1 2 < mkRat 13 20) ∧
    (thresholdPass (mkRat 13 20) [wRowLow]).get ⟨0, by decide⟩ =
      { wRowLow with category := some "uncertain_review" } := by
  have h := claim_C2 (mkRat 13 20) (by decide) (by decide) [wRowLow] 0 (by decide) (by decide)
  exact ⟨⟨by decide, by decide, by decide⟩,
    h.1 (by decide) (mkRat 1 2) (by decide) (by decide)⟩

/-- Every value of the extension map is a member of the closed category
set. -/
theorem extMap_values_mem : ∀ p ∈ DEFAULT_EXTENSION_MAP, p.2 ∈ CATEGORIES := by
  decide

/-- Any category the rule pass assigns is in the closed set. -/
theorem ruleRow_category_mem (r : ScanRow) (cat : String)
    (h : (ruleRow r).category = some cat) : cat ∈ CATEGORIES := by
  cases hl : DEFAULT_EXTENSION_MAP.lookup (strLower r.extension) with
  | none => simp [ruleRow, hl] at h
  | some v =>
      simp [ruleRow, hl] at h
      subst h
      exact extMap_values_mem _ (lookup_mem hl)

/-- Any category the merge pass assigns is in the closed set, provided
the row's previous category (if any) was. -/
theorem mergeLlm_category_mem (results : List (String × LlmClassificationResult))
    (row : ClassifiedRow)
    (h : ∀ cat, row.category = some cat → cat ∈ CATEGORIES) :
    ∃ c, (mergeLlm results row).category = some c ∧ c ∈ CATEGORIES := by
  cases hs : row.category with
  | some cat =>
      rw [mergeLlm_of_isSome results row (by simp [hs])]
      exact ⟨cat, hs, h cat hs⟩
  | none =>
      unfold mergeLlm
      rw [hs]
      simp only [Option.isSome_none, Bool.false_eq_true, if_false]
      cases hl : results.lookup row.full_path with
      | none => exact ⟨"uncertain_review", rfl, by decide⟩
      | some res =>
          by_cases hc : res.category ∈ CATEGORIES
          · exact ⟨res.category, by simp [hc], hc⟩
          · exact ⟨"uncertain_review", by simp [hc], by decide⟩

/-- The threshold pass either keeps a row's category or demotes it to
the fallback label. -/
theorem thresholdStep_category (m : ℚ) (row : ClassifiedRow) :
    (thresholdStep m row).category = row.category ∨
      (thresholdStep m row).category = some "uncertain_review" := by
  unfold thresholdStep
  split
  · right; rfl
  · left; rfl

/-- Claim C3: when `classify_files` returns, every record carries a
non-null category from the closed set; and the merge pass replaces an
adapter-returned category outside the closed set by the fallback
label. -/
theorem claim_C3 (apiKey : Option String) (oracle : LlmOracle) (rows : List ScanRow)
    (m : ℚ) (out : List ClassifiedRow)
    (hok : classify_files apiKey oracle rows m = .ok out) :
    (∀ row ∈ out, ∃ c, row.category = some c ∧ c ∈ CATEGORIES)
    ∧ (∀ (results : List (String × LlmClassificationResult)) (row : ClassifiedRow)
        (res : LlmClassificationResult), row.category = none →
        results.lookup row.full_path = some res → res.category ∉ CATEGORIES →
        (mergeLlm results row).category = some "uncertain_review") := by
  obtain ⟨f, hid, hmerge, hout⟩ := classify_files_ok_shape apiKey oracle rows m out hok
  constructor
  · intro row hrow
    rw [hout] at hrow
    obtain ⟨r0, hr0, rfl⟩ := List.mem_map.mp hrow
    have hr0cat : ∀ cat, r0.category = some cat → cat ∈ CATEGORIES := by
      obtain ⟨r00, _, rfl⟩ := List.mem_map.mp hr0
      exact ruleRow_category_mem r00
    have hf : ∃ c, (f r0).category = some c ∧ c ∈ CATEGORIES := by
      cases hs : r0.category with
      | some cat =>
          rw [hid r0 (by simp [hs])]
          exact ⟨cat, hs, hr0cat cat hs⟩
      | none =>
          obtain ⟨results, hres⟩ := hmerge r0 hr0 hs
          rw [hres]
          exact mergeLlm_category_mem results r0 hr0cat
    obtain ⟨c, hc, hcmem⟩ := hf
    rcases thresholdStep_category m (f r0) with h | h
    · exact ⟨c, h.trans hc, hcmem⟩
    · exact ⟨"uncertain_review", h, by decide⟩
  · intro results row res hnone hlookup hnotmem
    simp [mergeLlm, hnone, hlookup, hnotmem]

/-- Scan rows with one rule-matched and one ambiguous record. -/
def wRowsAmb : List ScanRow :=
  wRows1 ++
    [ { file_name := "x.xyz", extension := ".xyz", full_path := "/r/x.xyz"
      , size_bytes := 5, modified_time := 0 } ]

/-- A remote oracle answering with a category outside the closed set. -/
def wOracleWeird : LlmOracle := fun _ =>
  .parsed [("/r/x.xyz", .entry (some "weird_cat") (some (mkRat 9 10)))]

/-- The classified output for `wRowsAmb` under `wOracleWeird`. -/
def wOutAmb : List ClassifiedRow :=
  wOut1 ++
    [ { file_name := "x.xyz", extension := ".xyz", full_path := "/r/x.xyz"
      , size_bytes := 5, modified_time := 0, category := some "uncertain_review"
      , classifier_type := some "llm", confidence := some (mkRat 9 10) } ]

theorem claim_C3_witness :
    classify_files (some "sk-key") wOracleWeird wRowsAmb (mkRat 13 20) = .ok wOutAmb ∧
    (∀ row ∈ wOutAmb, ∃ c, row.category = some c ∧ c ∈ CATEGORIES) := by
  have h := claim_C3 (some "sk-key") wOracleWeird wRowsAmb (mkRat 13 20) wOutAmb (by decide)
  exact ⟨by decide, h.1⟩

/-- Claim C9: the remote-classifier helper returns an empty mapping for
an empty pending list, for any credential (including none) and without
consulting the oracle; consequently a classify run in which every file
matched a rule succeeds with no credential configured. -/
theorem claim_C9 :
    (∀ (apiKey : Option String) (oracle : LlmOracle),
        llm_classify_files apiKey oracle [] = .ok [])
    ∧ (∀ (oracle : LlmOracle) (rows : List ScanRow) (m : ℚ),
        (∀ r ∈ rows, (DEFAULT_EXTENSION_MAP.lookup (strLower r.extension)).isSome) →
        classify_files none oracle rows m = .ok (thresholdPass m (rows.map ruleRow))) := by
  constructor
  · intro apiKey oracle
    rfl
  · intro oracle rows m hall
    exact classify_files_of_all_matched none oracle rows m hall

theorem claim_C9_witness :
    llm_classify_files none wOracleDown [] = .ok [] ∧
    classify_files none wOracleDown wRows1 (mkRat 13 20) =
      .ok (thresholdPass (mkRat 13 20) (wRows1.map ruleRow)) := by
  exact ⟨claim_C9.1 none wOracleDown,
    claim_C9.2 wOracleDown wRows1 (mkRat 13 20) (by decide)⟩

/-! ## Theorems on the executor's collision resolution -/

/-- The probe loop returns the first free candidate at or after its
starting index, provided it lies within fuel. -/
theorem resolveCollisionAux_finds (files : List FPath) (p : FPath) :
    ∀ (fuel i j : Nat), i ≤ j → j - i ≤ fuel →
      candidatePath p j ∉ files →
      (∀ k, i ≤ k → k < j → candidatePath p k ∈ files) →
      resolveCollisionAux files p fuel i = candidatePath p j := by
  intro fuel
  induction fuel with
  | zero =>
      intro i j hij hle _ _
      have : i = j := by omega
      subst this
      rfl
  | succ fuel ih =>
      intro i j hij hle hfree hmin
      by_cases hij2 : i = j
      · subst hij2
        simp [resolveCollisionAux, hfree]
      · have hilt : i < j := by omega
        have hmem : candidatePath p i ∈ files := hmin i le_rfl hilt
        simp only [resolveCollisionAux, hmem, if_pos]
        exact ih (i + 1) j (by omega) (by omega) hfree
          (fun k hk1 hk2 => hmin k (by omega) hk2)

/-- Claim C5: `_resolve_collision` keeps a non-existing destination
unchanged; otherwise it returns the first path of the form
`name (i).ext`, probing `i = 1, 2, ...` sequentially, that does not
exist (here `j` is that first free probe index). -/
theorem claim_C5 (files : List FPath) (p : FPath) (j : Nat)
    (hj1 : 1 ≤ j) (hbound : j ≤ files.length + 1)
    (hfree : candidatePath p j ∉ files)
    (hmin : ∀ k, 1 ≤ k → k < j → candidatePath p k ∈ files) :
    resolve_collision files p = if p ∈ files then candidatePath p j else p := by
  by_cases hp : p ∈ files
  · rw [if_pos hp]
    unfold resolve_collision
    rw [if_pos hp]
    exact resolveCollisionAux_finds files p (files.length + 1) 1 j hj1 (by omega) hfree hmin
  · rw [if_neg hp]
    unfold resolve_collision
    rw [if_neg hp]

/-- The collision scenario's intended destination `r/foo.txt`. -/
def pFoo : FPath := ["r", "foo.txt"]

/-- The destination directory after the first move landed at
`foo.txt`. -/
def fsFoo1 : List FPath := [["r", "foo.txt"]]

/-- The destination directory after the second move landed at
`foo (1).txt`. -/
def fsFoo2 : List FPath := [["r", "foo.txt"], ["r", "foo (1).txt"]]

theorem claim_C5_witness :
    resolve_collision [] pFoo = pFoo ∧
    resolve_collision fsFoo1 pFoo = ["r", "foo (1).txt"] ∧
    resolve_collision fsFoo2 pFoo = ["r", "foo (2).txt"] := by
  have h0 := claim_C5 [] pFoo 1 (by decide) (by decide) (by decide)
    (fun k hk1 hk2 => by omega)
  have h1 := claim_C5 fsFoo1 pFoo 1 (by decide) (by decide) (by decide)
    (fun k hk1 hk2 => by omega)
  have h2 := claim_C5 fsFoo2 pFoo 2 (by decide) (by decide) (by decide)
    (fun k hk1 hk2 => by
      have hk : k = 1 := by omega
      subst hk
      decide)
  exact ⟨h0.trans (by decide), h1.trans (by decide), h2.trans (by decide)⟩

/-! ## Theorems on the move-log writer -/

/-- Claim C8: the move-log writer writes a file for any record
sequence (the empty one included) at the deterministic path
`<root>/.organizer/logs/move_log_<UTC timestamp>.csv` and returns that
path; failure to create the directory or to write the file raises
`LoggingError`, and `LoggingError` is the only error kind it can
raise (in particular it is distinct from the per-file `failed: ...`
statuses, which are data, not errors). -/
theorem claim_C8 (lfs : LogFs) (records : List MoveRecord) (root : FPath)
    (now : DateTimeUTC) :
    (lfs.mkdirFail (root ++ [".organizer", "logs"]) = none →
      lfs.writeFail
          (root ++ [".organizer", "logs", "move_log_" ++ formatTimestamp now ++ ".csv"])
          (csvContent records) = none →
      write_move_log lfs records root now =
        .ok (root ++ [".organizer", "logs", "move_log_" ++ formatTimestamp now ++ ".csv"]))
    ∧ (∀ e, lfs.mkdirFail (root ++ [".organizer", "logs"]) = some e →
        write_move_log lfs records root now =
          .error (.loggingError
            ("Failed to create log directory: " ++
              renderPath (root ++ [".organizer", "logs"]))))
    ∧ (lfs.mkdirFail (root ++ [".organizer", "logs"]) = none →
        ∀ e, lfs.writeFail
            (root ++ [".organizer", "logs", "move_log_" ++ formatTimestamp now ++ ".csv"])
            (csvContent records) = some e →
        write_move_log lfs records root now =
          .error (.loggingError
            ("Failed to write move log to '" ++
              renderPath
                (root ++ [".organizer", "logs", "move_log_" ++ formatTimestamp now ++ ".csv"]) ++
              "'.")))
    ∧ (∀ e, write_move_log lfs records root now = .error e →
        ∃ msg, e = .loggingError msg) := by
  have hassoc :
      (root ++ [".organizer", "logs"]) ++ ["move_log_" ++ formatTimestamp now ++ ".csv"] =
        root ++ [".organizer", "logs", "move_log_" ++ formatTimestamp now ++ ".csv"] := by
    simp
  refine ⟨?_, ?_, ?_, ?_⟩
  · intro hmk hwr
    simp only [write_move_log]
    rw [hmk, hassoc, hwr]
  · intro e hmk
    simp only [write_move_log]
    rw [hmk]
  · intro hmk e hwr
    simp only [write_move_log]
    rw [hmk, hassoc, hwr]
  · intro e herr
    simp only [write_move_log] at herr
    cases hmk : lfs.mkdirFail (root ++ [".organizer", "logs"]) with
    | some msg =>
        rw [hmk] at herr
        simp at herr
        exact ⟨_, herr.symm⟩
    | none =>
        rw [hmk, hassoc] at herr
        cases hwr : lfs.writeFail
            (root ++ [".organizer", "logs", "move_log_" ++ formatTimestamp now ++ ".csv"])
            (csvContent records) with
        | some msg =>
            rw [hwr] at herr
            simp at herr
            exact ⟨_, herr.symm⟩
        | none =>
            rw [hwr] at herr
            simp at herr

/-- A log filesystem on which everything succeeds. -/
def wLogFsOk : LogFs := { mkdirFail := fun _ => none, writeFail := fun _ _ => none }

theorem claim_C8_witness :
    write_move_log wLogFsOk [] ["root"] ⟨2026, 10, 12, 3, 4, 5⟩ =
      .ok ["root", ".organizer", "logs", "move_log_20261012_030405Z.csv"] := by
  have h := (claim_C8 wLogFsOk [] ["root"] ⟨2026, 10, 12, 3, 4, 5⟩).1 rfl rfl
  exact h.trans (by decide)

/-! ## Theorems on the executor -/

/-- A null, empty or `"nan"` category is coerced to the fallback
category. -/
theorem effCategory_fallback (c : Option String)
    (hc : c = none ∨ c = some "" ∨ c = some "nan") :
    effCategory c = "uncertain_review" := by
  rcases hc with h | h | h <;> simp [effCategory, h]

/-- Claim C10: `apply_plan` does not require a record's category to be
valid: a record whose category is null, empty, or the string `"nan"` is
silently coerced to `"uncertain_review"` and processed — moved into the
`uncertain_review` directory with a `success` status — rather than
raising an error or being skipped. -/
theorem claim_C10 (fs : FsState) (root : FPath) (row : ExecRow)
    (hcat : row.category = none ∨ row.category = some "" ∨ row.category = some "nan")
    (hdir : fs.dirFail (root ++ ["uncertain_review"]) = none)
    (hsrc : row.full_path ∈ fs.files)
    (hneq : row.full_path ≠ root ++ ["uncertain_review", pathName row.full_path])
    (hdst : root ++ ["uncertain_review", pathName row.full_path] ∉ fs.files)
    (hmv : fs.moveFail row.full_path
        (root ++ ["uncertain_review", pathName row.full_path]) = none) :
    (apply_plan fs root [row]).records =
      [ mkMoveRecord row (root ++ ["uncertain_review", pathName row.full_path])
          "uncertain_review" "success" ] := by
  have hc := effCategory_fallback row.category hcat
  have happ : (root ++ ["uncertain_review"]) ++ [pathName row.full_path] =
      root ++ ["uncertain_review", pathName row.full_path] := by
    simp
  have hres : resolve_collision fs.files
      (root ++ ["uncertain_review", pathName row.full_path]) =
      root ++ ["uncertain_review", pathName row.full_path] := by
    unfold resolve_collision
    rw [if_neg hdst]
  simp only [apply_plan, List.foldl_cons, List.foldl_nil, applyStep, hc]
  rw [show ([] : List (String × String)).lookup "uncertain_review" = none from rfl]
  simp only [hdir, happ]
  rw [if_neg (not_not_intro hsrc), if_neg hneq]
  simp only [hres, hmv]
  rfl

/-- A one-record plan row with a null category. -/
def wExecRowNan : ExecRow :=
  { file_name := "m.bin", full_path := ["src", "m.bin"], category := none
  , classifier_type := some "llm", confidence := some 0 }

/-- A filesystem on which every operation succeeds and only the source
file exists. -/
def wFsClean : FsState :=
  { files := [["src", "m.bin"]]
  , dirFail := fun _ => none
  , moveFail := fun _ _ => none }

theorem claim_C10_witness :
    (apply_plan wFsClean ["root"] [wExecRowNan]).records =
      [ mkMoveRecord wExecRowNan ["root", "uncertain_review", "m.bin"]
          "uncertain_review" "success" ] := by
  have h := claim_C10 wFsClean ["root"] wExecRowNan (Or.inl rfl) rfl (by decide)
    (by decide) (by decide) rfl
  exact h.trans (by decide)

/-- The status shape of a successful move. -/
def isSuccess (st : String) : Prop := st = "success"

/-- The status shape `skipped: <reason>`. -/
def isSkipped (st : String) : Prop := ∃ s, st = "skipped: " ++ s

/-- The status shape `failed: <reason>`. -/
def isFailed (st : String) : Prop := ∃ s, st = "failed: " ++ s

/-- A status string has exactly one of the three shapes. -/
def exactlyOneStatus (st : String) : Prop :=
  (isSuccess st ∧ ¬ isSkipped st ∧ ¬ isFailed st) ∨
  (¬ isSuccess st ∧ isSkipped st ∧ ¬ isFailed st) ∨
  (¬ isSuccess st ∧ ¬ isSkipped st ∧ isFailed st)

theorem success_ne_skipped (s : String) : "success" ≠ "skipped: " ++ s := by
  intro h
  have h2 := congrArg String.data h
  simp [String.data_append] at h2

theorem success_ne_failed (s : String) : "success" ≠ "failed: " ++ s := by
  intro h
  have h2 := congrArg String.data h
  simp [String.data_append] at h2

theorem skipped_ne_failed (s t : String) : "skipped: " ++ s ≠ "failed: " ++ t := by
  intro h
  have h2 := congrArg String.data h
  simp [String.data_append] at h2

/-- The three status shapes are mutually exclusive, so having one of
them means having exactly one. -/
theorem exactlyOneStatus_of (st : String)
    (h : isSuccess st ∨ isSkipped st ∨ isFailed st) : exactlyOneStatus st := by
  rcases h with h | h | h
  · refine Or.inl ⟨h, ?_, ?_⟩
    · rintro ⟨s, hs⟩
      exact success_ne_skipped s (h ▸ hs)
    · rintro ⟨s, hs⟩
      exact success_ne_failed s (h ▸ hs)
  · obtain ⟨s, hs⟩ := h
    refine Or.inr (Or.inl ⟨?_, ⟨s, hs⟩, ?_⟩)
    · intro hsu
      exact success_ne_skipped s (hsu ▸ hs)
    · rintro ⟨t, ht⟩
      exact skipped_ne_failed s t (hs ▸ ht)
  · obtain ⟨s, hs⟩ := h
    refine Or.inr (Or.inr ⟨?_, ?_, ⟨s, hs⟩⟩)
    · intro hsu
      exact success_ne_failed s (hsu ▸ hs)
    · rintro ⟨t, ht⟩
      exact skipped_ne_failed t s (ht ▸ hs)

/-- The cached directory-failure reason string built by `apply_plan`. -/
def mkDirReason (root : FPath) (cat : String) (exc : String) : String :=
  "could not create target directory '" ++ renderPath (root ++ [cat]) ++ "': " ++ exc

/-- Case analysis of one `apply_plan` loop iteration: the cached-failure
short-circuit, the directory-creation failure, or the remaining paths
(which touch neither the failure cache nor another category's
bookkeeping). -/
theorem applyStep_cases (fs : FsState) (root : FPath) (st : ApplyState) (row : ExecRow) :
    (∃ reason, st.failures.lookup (effCategory row.category) = some reason ∧
      applyStep fs root st row =
        { st with records := st.records ++
            [mkMoveRecord row
              ((root ++ [effCategory row.category]) ++ [pathName row.full_path])
              (effCategory row.category) ("failed: " ++ reason)] })
    ∨ (∃ exc, st.failures.lookup (effCategory row.category) = none ∧
        fs.dirFail (root ++ [effCategory row.category]) = some exc ∧
        applyStep fs root st row =
          { st with
              mkdirCalls := st.mkdirCalls ++ [root ++ [effCategory row.category]]
            , failures :=
                (effCategory row.category, mkDirReason root (effCategory row.category) exc) ::
                  st.failures
            , records := st.records ++
                [mkMoveRecord row
                  ((root ++ [effCategory row.category]) ++ [pathName row.full_path])
                  (effCategory row.category)
                  ("failed: " ++ mkDirReason root (effCategory row.category) exc)] })
    ∨ (st.failures.lookup (effCategory row.category) = none ∧
        fs.dirFail (root ++ [effCategory row.category]) = none ∧
        ∃ (newp : FPath) (status : String) (files2 : List FPath),
          (isSuccess status ∨ isSkipped status ∨ isFailed status) ∧
          applyStep fs root st row =
            { st with
                mkdirCalls := st.mkdirCalls ++ [root ++ [effCategory row.category]]
              , files := files2
              , records := st.records ++
                  [mkMoveRecord row newp (effCategory row.category) status] }) := by
  cases hlk : st.failures.lookup (effCategory row.category) with
  | some reason =>
      left
      exact ⟨reason, rfl, by simp only [applyStep, hlk]⟩
  | none =>
      cases hdf : fs.dirFail (root ++ [effCategory row.category]) with
      | some exc =>
          right; left
          exact ⟨exc, rfl, rfl, by simp only [applyStep, hlk, hdf, mkDirReason]⟩
      | none =>
          right; right
          refine ⟨rfl, rfl, ?_⟩
          by_cases hex : row.full_path ∉ st.files
          · refine ⟨(root ++ [effCategory row.category]) ++ [pathName row.full_path],
              "failed: source file not found", st.files,
              Or.inr (Or.inr ⟨"source file not found", by decide⟩), ?_⟩
            simp only [applyStep, hlk, hdf]
            rw [if_pos hex]
          · by_cases heq : row.full_path =
                (root ++ [effCategory row.category]) ++ [pathName row.full_path]
            · refine ⟨(root ++ [effCategory row.category]) ++ [pathName row.full_path],
                "skipped: already in target", st.files,
                Or.inr (Or.inl ⟨"already in target", by decide⟩), ?_⟩
              simp only [applyStep, hlk, hdf]
              rw [if_neg hex, if_pos heq]
            · cases hmv : fs.moveFail row.full_path
                  (resolve_collision st.files
                    ((root ++ [effCategory row.category]) ++ [pathName row.full_path])) with
              | none =>
                  refine ⟨resolve_collision st.files
                      ((root ++ [effCategory row.category]) ++ [pathName row.full_path]),
                    "success",
                    resolve_collision st.files
                        ((root ++ [effCategory row.category]) ++ [pathName row.full_path]) ::
                      st.files.erase row.full_path,
                    Or.inl rfl, ?_⟩
                  simp only [applyStep, hlk, hdf]
                  rw [if_neg hex, if_neg heq]
                  simp only [hmv]
              | some exc2 =>
                  refine ⟨resolve_collision st.files
                      ((root ++ [effCategory row.category]) ++ [pathName row.full_path]),
                    "failed: " ++ exc2, st.files,
                    Or.inr (Or.inr ⟨exc2, rfl⟩), ?_⟩
                  simp only [applyStep, hlk, hdf]
                  rw [if_neg hex, if_neg heq]
                  simp only [hmv]

/-- Each loop iteration of `apply_plan` appends exactly one move record,
whose status has one of the three shapes and whose category is the row's
effective category. -/
theorem applyStep_records (fs : FsState) (root : FPath) (st : ApplyState) (row : ExecRow) :
    ∃ rec : MoveRecord,
      (applyStep fs root st row).records = st.records ++ [rec] ∧
      (isSuccess rec.status ∨ isSkipped rec.status ∨ isFailed rec.status) ∧
      rec.category = effCategory row.category := by
  rcases applyStep_cases fs root st row with
      ⟨r, _, heq⟩ | ⟨e, _, _, heq⟩ | ⟨_, _, np, stt, f2, hshape, heq⟩
  · exact ⟨_, by rw [heq], Or.inr (Or.inr ⟨r, rfl⟩), rfl⟩
  · exact ⟨_, by rw [heq], Or.inr (Or.inr ⟨_, rfl⟩), rfl⟩
  · exact ⟨_, by rw [heq], hshape, rfl⟩

/-- Fold invariant for claim C6: record count and status shapes. -/
theorem apply_plan_records_aux (fs : FsState) (root : FPath) :
    ∀ (rows : List ExecRow) (st : ApplyState),
      ((rows.foldl (applyStep fs root) st).records.length =
        st.records.length + rows.length) ∧
      (∀ rec ∈ (rows.foldl (applyStep fs root) st).records,
        rec ∈ st.records ∨ isSuccess rec.status ∨ isSkipped rec.status ∨
          isFailed rec.status) := by
  intro rows
  induction rows with
  | nil =>
      intro st
      exact ⟨rfl, fun rec h => Or.inl h⟩
  | cons row rows ih =>
      intro st
      obtain ⟨rec, hrec, hshape, -⟩ := applyStep_records fs root st row
      constructor
      · rw [List.foldl_cons, (ih (applyStep fs root st row)).1, hrec]
        simp
        omega
      · intro r hr
        rw [List.foldl_cons] at hr
        rcases (ih (applyStep fs root st row)).2 r hr with hmem | h
        · rw [hrec] at hmem
          rcases List.mem_append.mp hmem with h1 | h2
          · exact Or.inl h1
          · have : r = rec := by simpa using h2
            subst this
            exact Or.inr hshape
        · exact Or.inr h

/-- Claim C6: `apply_plan` produces exactly one move record per input
record, each with a status of exactly one of the shapes `success`,
`skipped: <reason>` or `failed: <reason>`; this holds for every
filesystem behavior, so a per-file failure never prevents later records
from being attempted and recorded. -/
theorem claim_C6 (fs : FsState) (root : FPath) (rows : List ExecRow) :
    (apply_plan fs root rows).records.length = rows.length ∧
    ∀ rec ∈ (apply_plan fs root rows).records, exactlyOneStatus rec.status := by
  have h := apply_plan_records_aux fs root rows
    { files := fs.files, failures := [], records := [], mkdirCalls := [] }
  refine ⟨by simpa [apply_plan] using h.1, fun rec hrec => ?_⟩
  rcases h.2 rec hrec with hmem | hsh
  · exact absurd hmem (List.not_mem_nil rec)
  · exact exactlyOneStatus_of rec.status hsh

/-- Three plan rows, all named `foo.txt` targeting the same category. -/
def wExecRows3 : List ExecRow :=
  [ { file_name := "foo.txt", full_path := ["s1", "foo.txt"]
    , category := some "documents_misc", classifier_type := some "rule"
    , confidence := some 1 }
  , { file_name := "foo.txt", full_path := ["s2", "foo.txt"]
    , category := some "documents_misc", classifier_type := some "rule"
    , confidence := some 1 }
  , { file_name := "foo.txt", full_path := ["s3", "foo.txt"]
    , category := some "documents_misc", classifier_type := some "rule"
    , confidence := some 1 } ]

/-- A filesystem holding the three source files, on which everything
succeeds. -/
def wFsColl : FsState :=
  { files := [["s1", "foo.txt"], ["s2", "foo.txt"], ["s3", "foo.txt"]]
  , dirFail := fun _ => none
  , moveFail := fun _ _ => none }

theorem claim_C6_witness :
    (apply_plan wFsColl ["root"] wExecRows3).records.length = wExecRows3.length ∧
    exactlyOneStatus
      (((apply_plan wFsColl ["root"] wExecRows3).records.get ⟨0, by decide⟩).status) := by
  have h := claim_C6 wFsColl ["root"] wExecRows3
  exact ⟨h.1, h.2 _ (List.get_mem _ _ _)⟩

/-- Fold invariant for claim C7: once the failure cache holds the
failing category, it keeps exactly the first failure's reason, the
directory is never probed again, and every record of that category is
marked with the cached reason. -/
theorem apply_plan_c7_aux (fs : FsState) (root : FPath) (c exc : String)
    (hfail : fs.dirFail (root ++ [c]) = some exc) :
    ∀ (rows : List ExecRow) (st : ApplyState),
      ((st.failures.lookup c = none ∧ st.mkdirCalls.count (root ++ [c]) = 0) ∨
        (st.failures.lookup c = some (mkDirReason root c exc) ∧
          st.mkdirCalls.count (root ++ [c]) ≤ 1)) →
      (∀ rec ∈ st.records, rec.category = c →
        rec.status = "failed: " ++ mkDirReason root c exc) →
      ((rows.foldl (applyStep fs root) st).mkdirCalls.count (root ++ [c]) ≤ 1 ∧
        ∀ rec ∈ (rows.foldl (applyStep fs root) st).records, rec.category = c →
          rec.status = "failed: " ++ mkDirReason root c exc) := by
  intro rows
  induction rows with
  | nil =>
      intro st hinv hrec
      rw [List.foldl_nil]
      refine ⟨?_, hrec⟩
      rcases hinv with ⟨-, h0⟩ | ⟨-, h1⟩
      · rw [h0]
        omega
      · exact h1
  | cons row rows ih =>
      intro st hinv hrec
      rw [List.foldl_cons]
      by_cases hc : effCategory row.category = c
      · rcases applyStep_cases fs root st row with
            ⟨reason, hlk, heq⟩ | ⟨e, hlk, hdf, heq⟩ | ⟨-, hdf, -⟩
        · rw [hc] at hlk heq
          rcases hinv with ⟨hnone, -⟩ | ⟨hsome, hcount⟩
          · rw [hnone] at hlk
            cases hlk
          · rw [hsome] at hlk
            injection hlk with hreason
            subst hreason
            apply ih
            · rw [heq]
              exact Or.inr ⟨hsome, hcount⟩
            · intro rec hmem hcat
              rw [heq] at hmem
              rcases List.mem_append.mp hmem with h1 | h2
              · exact hrec rec h1 hcat
              · have : rec = mkMoveRecord row
                    ((root ++ [c]) ++ [pathName row.full_path]) c
                    ("failed: " ++ mkDirReason root c exc) := by
                  simpa using h2
                rw [this]
                rfl
        · rw [hc] at hlk hdf heq
          rw [hfail] at hdf
          injection hdf with he
          subst he
          rcases hinv with ⟨hnone, hcount0⟩ | ⟨hsome, -⟩
          · apply ih
            · rw [heq]
              refine Or.inr ⟨?_, ?_⟩
              · simp [List.lookup]
              · simp [List.count_append, hcount0]
            · intro rec hmem hcat
              rw [heq] at hmem
              rcases List.mem_append.mp hmem with h1 | h2
              · exact hrec rec h1 hcat
              · have : rec = mkMoveRecord row
                    ((root ++ [c]) ++ [pathName row.full_path]) c
                    ("failed: " ++ mkDirReason root c exc) := by
                  simpa using h2
                rw [this]
                rfl
          · rw [hsome] at hlk
            cases hlk
        · rw [hc] at hdf
          rw [hfail] at hdf
          cases hdf
      · have hne : root ++ [effCategory row.category] ≠ root ++ [c] := by
          intro h
          exact hc (by simpa using List.append_cancel_left h)
        have hbeq : (c == effCategory row.category) = false :=
          beq_eq_false_iff_ne.mpr (Ne.symm hc)
        have hcount1 : ∀ l : List FPath,
            (l ++ [root ++ [effCategory row.category]]).count (root ++ [c]) =
              l.count (root ++ [c]) := by
          intro l
          rw [List.count_append]
          have : ([root ++ [effCategory row.category]] :
              List FPath).count (root ++ [c]) = 0 := by
            rw [List.count_eq_zero]
            intro hmem
            have h3 : root ++ [c] = root ++ [effCategory row.category] := by
              simpa using hmem
            exact hne h3.symm
          omega
        rcases applyStep_cases fs root st row with
            ⟨reason, hlk, heq⟩ | ⟨e, hlk, hdf, heq⟩ | ⟨hlk, hdf, np, stt, f2, hsh, heq⟩
        · apply ih
          · rw [heq]
            exact hinv
          · intro rec hmem hcat
            rw [heq] at hmem
            rcases List.mem_append.mp hmem with h1 | h2
            · exact hrec rec h1 hcat
            · have hr : rec = mkMoveRecord row
                  ((root ++ [effCategory row.category]) ++ [pathName row.full_path])
                  (effCategory row.category) ("failed: " ++ reason) := by
                simpa using h2
              rw [hr] at hcat
              exact absurd hcat hc
        · apply ih
          · rw [heq]
            rcases hinv with ⟨hnone, hcount0⟩ | ⟨hsome, hcount⟩
            · refine Or.inl ⟨?_, ?_⟩
              · show List.lookup c
                    ((effCategory row.category, _) :: st.failures) = none
                rw [List.lookup]
                simp only [hbeq]
                exact hnone
              · rw [hcount1]
                exact hcount0
            · refine Or.inr ⟨?_, ?_⟩
              · show List.lookup c
                    ((effCategory row.category, _) :: st.failures) =
                    some (mkDirReason root c exc)
                rw [List.lookup]
                simp only [hbeq]
                exact hsome
              · rw [hcount1]
                exact hcount
          · intro rec hmem hcat
            rw [heq] at hmem
            rcases List.mem_append.mp hmem with h1 | h2
            · exact hrec rec h1 hcat
            · have hr : rec = mkMoveRecord row
                  ((root ++ [effCategory row.category]) ++ [pathName row.full_path])
                  (effCategory row.category)
                  ("failed: " ++ mkDirReason root (effCategory row.category) e) := by
                simpa using h2
              rw [hr] at hcat
              exact absurd hcat hc
        · apply ih
          · rw [heq]
            rcases hinv with ⟨hnone, hcount0⟩ | ⟨hsome, hcount⟩
            · exact Or.inl ⟨hnone, by rw [hcount1]; exact hcount0⟩
            · exact Or.inr ⟨hsome, by rw [hcount1]; exact hcount⟩
          · intro rec hmem hcat
            rw [heq] at hmem
            rcases List.mem_append.mp hmem with h1 | h2
            · exact hrec rec h1 hcat
            · have hr : rec = mkMoveRecord row np (effCategory row.category) stt := by
                simpa using h2
              rw [hr] at hcat
              exact absurd hcat hc

/-- Claim C7: within one `apply_plan` run, once directory creation for a
category fails, the directory is never probed again (at most one mkdir
attempt on it in the whole run) and every record of that category —
including all later ones — is marked `failed:` with the reason cached
from the first failure. -/
theorem claim_C7 (fs : FsState) (root : FPath) (rows : List ExecRow) (c exc : String)
    (hfail : fs.dirFail (root ++ [c]) = some exc) :
    (apply_plan fs root rows).mkdirCalls.count (root ++ [c]) ≤ 1 ∧
    ∀ rec ∈ (apply_plan fs root rows).records, rec.category = c →
      rec.status = "failed: " ++ mkDirReason root c exc := by
  have h := apply_plan_c7_aux fs root c exc hfail rows
    { files := fs.files, failures := [], records := [], mkdirCalls := [] }
    (Or.inl ⟨rfl, rfl⟩)
    (fun rec hmem _ => absurd hmem (List.not_mem_nil rec))
  exact h

/-- A filesystem on which the `documents_misc` directory cannot be
created. -/
def wFsBadDir : FsState :=
  { files := [["s1", "foo.txt"], ["s2", "foo.txt"], ["s3", "foo.txt"]]
  , dirFail := fun d => if d = ["root", "documents_misc"] then some "perm denied" else none
  , moveFail := fun _ _ => none }

theorem claim_C7_witness :
    wFsBadDir.dirFail (["root"] ++ ["documents_misc"]) = some "perm denied" ∧
    ((apply_plan wFsBadDir ["root"] wExecRows3).mkdirCalls.count
        (["root"] ++ ["documents_misc"]) ≤ 1 ∧
      ∀ rec ∈ (apply_plan wFsBadDir ["root"] wExecRows3).records,
        rec.category = "documents_misc" →
        rec.status = "failed: " ++ mkDirReason ["root"] "documents_misc" "perm denied") := by
  exact ⟨by decide,
    claim_C7 wFsBadDir ["root"] wExecRows3 "documents_misc" "perm denied" (by decide)⟩

/-! ## Theorems on the plan builder -/

theorem mem_firstSeenAux : ∀ (l seen : List String) (a : String),
    a ∈ firstSeenAux seen l ↔ (a ∈ l ∧ a ∉ seen) := by
  intro l
  induction l with
  | nil => simp [firstSeenAux]
  | cons b t ih =>
      intro seen a
      rw [firstSeenAux]
      by_cases hb : b ∈ seen
      · rw [if_pos hb, ih]
        constructor
        · rintro ⟨h1, h2⟩
          exact ⟨List.mem_cons_of_mem b h1, h2⟩
        · rintro ⟨h1, h2⟩
          rcases List.mem_cons.mp h1 with rfl | h1t
          · exact absurd hb h2
          · exact ⟨h1t, h2⟩
      · rw [if_neg hb]
        constructor
        · intro h
          rcases List.mem_cons.mp h with rfl | ht
          · exact ⟨List.mem_cons_self a t, hb⟩
          · obtain ⟨h1, h2⟩ := (ih (b :: seen) a).mp ht
            exact ⟨List.mem_cons_of_mem b h1,
              fun hs => h2 (List.mem_cons_of_mem b hs)⟩
        · rintro ⟨h1, h2⟩
          rcases List.mem_cons.mp h1 with rfl | h1t
          · exact List.mem_cons_self a _
          · by_cases hab : a = b
            · subst hab
              exact List.mem_cons_self a _
            · exact List.mem_cons_of_mem b
                ((ih (b :: seen) a).mpr ⟨h1t, by simp [hab, h2]⟩)

theorem nodup_firstSeenAux : ∀ (l seen : List String),
    (firstSeenAux seen l).Nodup := by
  intro l
  induction l with
  | nil => intro seen; simp [firstSeenAux]
  | cons b t ih =>
      intro seen
      rw [firstSeenAux]
      by_cases hb : b ∈ seen
      · rw [if_pos hb]
        exact ih seen
      · rw [if_neg hb]
        refine List.nodup_cons.mpr ⟨?_, ih (b :: seen)⟩
        intro hmem
        exact ((mem_firstSeenAux t (b :: seen) b).mp hmem).2 (List.mem_cons_self b seen)

theorem CATEGORIES_nodup : CATEGORIES.Nodup := by decide

/-- One row's group membership after a cons. -/
theorem groupRows_cons (r : ClassifiedRow) (rows : List ClassifiedRow) (c : String) :
    groupRows (r :: rows) c =
      if r.category = some c then r :: groupRows rows c else groupRows rows c := by
  by_cases h : r.category = some c
  · simp [groupRows, List.filter_cons, h]
  · simp [groupRows, List.filter_cons, h]

/-- Every category of a row in the record set appears in the ordered
category keys. -/
theorem mem_orderedCats (rows : List ClassifiedRow) (r : ClassifiedRow) (c : String)
    (hr : r ∈ rows) (hc : r.category = some c) : c ∈ orderedCats rows := by
  have hgrp : r ∈ groupRows rows c := by
    simp [groupRows, List.mem_filter, hr, hc]
  by_cases hmem : c ∈ CATEGORIES
  · exact List.mem_append_left _
      (List.mem_filter.mpr ⟨hmem, by simp [List.ne_nil_of_mem hgrp]⟩)
  · refine List.mem_append_right _ (List.mem_filter.mpr ⟨?_, by simp [hmem]⟩)
    rw [firstSeen, mem_firstSeenAux]
    exact ⟨List.mem_filterMap.mpr ⟨r, hr, hc⟩, List.not_mem_nil c⟩

/-- Every ordered category key has at least one member. -/
theorem orderedCats_nonempty (rows : List ClassifiedRow) (c : String)
    (hc : c ∈ orderedCats rows) : groupRows rows c ≠ [] := by
  rcases List.mem_append.mp hc with h | h
  · have := (List.mem_filter.mp h).2
    simpa using this
  · have h1 := (List.mem_filter.mp h).1
    rw [firstSeen, mem_firstSeenAux] at h1
    obtain ⟨r, hr, hcat⟩ := List.mem_filterMap.mp h1.1
    have hg : r ∈ groupRows rows c := by
      simp [groupRows, List.mem_filter, hr, hcat]
    exact List.ne_nil_of_mem hg

/-- The ordered category keys are duplicate-free. -/
theorem orderedCats_nodup (rows : List ClassifiedRow) : (orderedCats rows).Nodup := by
  refine List.Nodup.append (CATEGORIES_nodup.filter _)
    ((nodup_firstSeenAux _ _).filter _) ?_
  intro c hc1 hc2
  have h1 : c ∈ CATEGORIES := (List.mem_filter.mp hc1).1
  have h2 := (List.mem_filter.mp hc2).2
  simp at h2
  exact h2 h1

/-- On keys with nonempty groups the summary is total. -/
theorem categories_filterMap_eq_map (rows : List ClassifiedRow) :
    ∀ l : List String, (∀ c ∈ l, groupRows rows c ≠ []) →
      l.filterMap (mkCatSummary rows) = l.map (mkCatSummaryD rows) := by
  intro l
  induction l with
  | nil => intro _; rfl
  | cons a t ih =>
      intro h
      rw [List.filterMap_cons, List.map_cons]
      have ha : mkCatSummary rows a = some (mkCatSummaryD rows a) := by
        unfold mkCatSummary
        rw [if_neg (h a (List.mem_cons_self a t))]
      rw [ha, ih (fun c hc => h c (List.mem_cons_of_mem a hc))]

/-- Pointwise sums split. -/
theorem sum_map_add {M : Type} [AddCommMonoid M] (l : List String) (f g : String → M) :
    (l.map (fun c => f c + g c)).sum = (l.map f).sum + (l.map g).sum := by
  induction l with
  | nil => simp
  | cons a t ih =>
      simp only [List.map_cons, List.sum_cons, ih]
      rw [add_add_add_comm]

/-- Summing an indicator misses. -/
theorem sum_if_zero {M : Type} [AddCommMonoid M] (cs : List String) (c0 : String) (x : M)
    (h : c0 ∉ cs) : (cs.map (fun c => if c0 = c then x else 0)).sum = 0 := by
  induction cs with
  | nil => rfl
  | cons a t ih =>
      simp only [List.mem_cons, not_or] at h
      rw [List.map_cons, List.sum_cons, if_neg h.1, ih h.2, add_zero]

/-- Summing an indicator over a duplicate-free list containing its key
yields the value once. -/
theorem sum_if_one {M : Type} [AddCommMonoid M] (cs : List String) (c0 : String) (x : M)
    (hnd : cs.Nodup) (hmem : c0 ∈ cs) :
    (cs.map (fun c => if c0 = c then x else 0)).sum = x := by
  induction cs with
  | nil => cases hmem
  | cons a t ih =>
      obtain ⟨ha, ht⟩ := List.nodup_cons.mp hnd
      rcases List.mem_cons.mp hmem with rfl | hmem'
      · rw [List.map_cons, List.sum_cons, if_pos rfl, sum_if_zero t c0 x ha, add_zero]
      · have hne : c0 ≠ a := fun he => ha (he ▸ hmem')
        rw [List.map_cons, List.sum_cons, if_neg hne, ih ht hmem', zero_add]

/-- Partition identity: summing any row weight per category group over a
duplicate-free key list that covers all categories equals summing over
all rows (rows are required to be classified). -/
theorem sum_over_groups {M : Type} [AddCommMonoid M] (g : ClassifiedRow → M)
    (cs : List String) (hnd : cs.Nodup) :
    ∀ rows : List ClassifiedRow,
      (∀ r ∈ rows, ∀ c, r.category = some c → c ∈ cs) →
      (∀ r ∈ rows, r.category.isSome) →
      (cs.map (fun c => ((groupRows rows c).map g).sum)).sum = (rows.map g).sum := by
  intro rows
  induction rows with
  | nil =>
      intro _ _
      simp [groupRows]
  | cons r rows ih =>
      intro hcov hall
      obtain ⟨c0, hc0⟩ :=
        Option.isSome_iff_exists.mp (hall r (List.mem_cons_self r rows))
      have hc0mem : c0 ∈ cs := hcov r (List.mem_cons_self r rows) c0 hc0
      have hstep : ∀ c ∈ cs, ((groupRows (r :: rows) c).map g).sum =
          (if c0 = c then g r else 0) + ((groupRows rows c).map g).sum := by
        intro c _
        rw [groupRows_cons]
        by_cases h : c0 = c
        · rw [if_pos (by rw [hc0, h]), if_pos h, List.map_cons, List.sum_cons]
        · rw [if_neg (by rw [hc0]; simpa using h), if_neg h, zero_add]
      rw [List.map_congr_left hstep,
        sum_map_add cs (fun c => if c0 = c then g r else 0)
          (fun c => ((groupRows rows c).map g).sum),
        sum_if_one cs c0 (g r) hnd hc0mem,
        ih (fun r2 hr2 c hc => hcov r2 (List.mem_cons_of_mem r hr2) c hc)
          (fun r2 hr2 => hall r2 (List.mem_cons_of_mem r hr2)),
        List.map_cons, List.sum_cons]

/-- Counting rows as a sum of ones. -/
theorem sum_ones (l : List ClassifiedRow) : (l.map (fun _ => (1 : ℕ))).sum = l.length := by
  induction l with
  | nil => rfl
  | cons a t ih => simp [ih, Nat.add_comm]

/-- Division by a constant distributes over a mapped sum. -/
theorem sum_map_div (l : List ClassifiedRow) (f : ClassifiedRow → ℚ) (b : ℚ) :
    (l.map (fun x => f x / b)).sum = (l.map f).sum / b := by
  induction l with
  | nil => simp
  | cons a t ih => simp [ih, add_div]

/-- Claim C4: for every classified record set (each record carrying a
category) the per-category file counts of `build_plan` sum to the global
total file count, and the per-category sizes sum to the global total
size (exactly, in the rational model). -/
theorem claim_C4 (rows : List ClassifiedRow) (root_path : FPath)
    (hall : ∀ r ∈ rows, r.category.isSome) :
    ((build_plan rows root_path).categories.map (fun s => s.file_count)).sum =
      (build_plan rows root_path).total_files ∧
    ((build_plan rows root_path).categories.map (fun s => s.total_size_mb)).sum =
      (build_plan rows root_path).total_size_mb := by
  have hcov : ∀ r ∈ rows, ∀ c, r.category = some c → c ∈ orderedCats rows :=
    fun r hr c hc => mem_orderedCats rows r c hr hc
  have hcats : (build_plan rows root_path).categories =
      (orderedCats rows).map (mkCatSummaryD rows) :=
    categories_filterMap_eq_map rows (orderedCats rows)
      (fun c hc => orderedCats_nonempty rows c hc)
  constructor
  · rw [hcats, List.map_map]
    have heq : ∀ c ∈ orderedCats rows,
        ((fun s => s.file_count) ∘ mkCatSummaryD rows) c =
          ((groupRows rows c).map (fun _ => (1 : ℕ))).sum := by
      intro c _
      simp [mkCatSummaryD, sum_ones]
    rw [List.map_congr_left heq,
      sum_over_groups (fun _ => (1 : ℕ)) (orderedCats rows) (orderedCats_nodup rows)
        rows hcov hall, sum_ones]
    rfl
  · rw [hcats, List.map_map]
    have heq : ∀ c ∈ orderedCats rows,
        ((fun s => s.total_size_mb) ∘ mkCatSummaryD rows) c =
          ((groupRows rows c).map (fun r => (r.size_bytes : ℚ) / mbBytes)).sum := by
      intro c _
      simp [mkCatSummaryD, sum_map_div]
    rw [List.map_congr_left heq,
      sum_over_groups (fun r => (r.size_bytes : ℚ) / mbBytes) (orderedCats rows)
        (orderedCats_nodup rows) rows hcov hall,
      sum_map_div rows (fun r => (r.size_bytes : ℚ)) mbBytes]
    rfl

theorem claim_C4_witness :
    (∀ r ∈ wOutAmb, r.category.isSome) ∧
    (((build_plan wOutAmb ["r"]).categories.map (fun s => s.file_count)).sum =
        (build_plan wOutAmb ["r"]).total_files ∧
      ((build_plan wOutAmb ["r"]).categories.map (fun s => s.total_size_mb)).sum =
        (build_plan wOutAmb ["r"]).total_size_mb) :=
  ⟨by decide, claim_C4 wOutAmb ["r"] (by decide)⟩

end Cortex
